import Mathlib

/-!
Verification of the agentbox sandbox manager, in-container agent and egress
proxy against their natural-language specification.

The Python sources are shallowly embedded: strings are `List Char`, bytes are
`List Nat` (each < 256), wall-clock instants are `Nat`, the session table is a
function from session id to an optional record, and effectful collaborators
(the HMAC primitive, the JSON codec of the standard library, the container
engine) are parameters of the embedded operations.
-/

/-! ## Basic string helpers (Python `str` operations used by the sources) -/

/-- Characters of a Lean string literal, the working representation of text. -/
def chars (s : String) : List Char := s.toList

/-- Python `s.split(sep)` for a one-character separator: split on every
occurrence, `"" ↦ [""]`. -/
def splitOnChar (sep : Char) : List Char → List (List Char)
  | [] => [[]]
  | c :: rest =>
    if c = sep then [] :: splitOnChar sep rest
    else
      match splitOnChar sep rest with
      | [] => [[c]]
      | g :: gs => (c :: g) :: gs

/-- Python `s.lower()` (ASCII range, which covers host names). -/
def lowerChars (s : List Char) : List Char := s.map Char.toLower

/-- Python `s.strip()`: drop leading and trailing whitespace. -/
def stripChars (s : List Char) : List Char :=
  ((s.dropWhile Char.isWhitespace).reverse.dropWhile Char.isWhitespace).reverse

/-- Python `sep.join(parts)` for a one-character separator. -/
def joinChar (sep : Char) : List (List Char) → List Char
  | [] => []
  | [p] => p
  | p :: ps => p ++ sep :: joinChar sep ps

/-! ## Egress proxy: host allowlist matching (`EgressProxy._is_host_allowed`) -/

/-- Port stripping in `_is_host_allowed`: `host.split(":")[0]`. -/
def strip_port (host : List Char) : List Char := host.takeWhile (· ≠ ':')

/-- One allowlist entry of `_is_host_allowed`, both sides already lowercased:
exact equality, or, for a `*.` pattern, the host ends with the pattern minus
the leading `*` (`allowed[1:]`) or equals the pattern minus `*.`
(`allowed[2:]`). -/
def hostEntryAllowed (h a : List Char) : Bool :=
  decide (h = a) ||
    (List.isPrefixOf (chars "*.") a &&
      (List.isSuffixOf (a.drop 1) h || decide (h = a.drop 2)))

/-- `EgressProxy._is_host_allowed`: strip any port from the request host,
lowercase both sides, accept when any entry matches. -/
def is_host_allowed (host : List Char) (allowed_hosts : List (List Char)) : Bool :=
  allowed_hosts.any fun a0 =>
    hostEntryAllowed (lowerChars (strip_port host)) (lowerChars a0)

/-- One entry as the amended claim words it (inputs already lowercased): exact
equality, or, when the entry is a wildcard `*.D`, the host is `D` itself or
ends with `.D` — a subdomain of `D` of any depth. -/
def specEntryMatch (h a : List Char) : Bool :=
  decide (h = a) ||
    (List.isPrefixOf (chars "*.") a &&
      (decide (h = a.drop 2) || List.isSuffixOf ('.' :: a.drop 2) h))

/-- Host matching as the amended claim words it, with port stripping and
case-insensitive comparison. -/
def spec_host_match (host pat : List Char) : Bool :=
  specEntryMatch (lowerChars (strip_port host)) (lowerChars pat)

/-- One entry as claim C4 words it (inputs already lowercased): a wildcard
`*.D` matches only `D` itself or a one-level subdomain `sub.D`, with `sub` a
single dot-free label. -/
def claimedEntryMatch (h a : List Char) : Bool :=
  decide (h = a) ||
    (List.isPrefixOf (chars "*.") a &&
      (decide (h = a.drop 2) ||
        (List.isSuffixOf ('.' :: a.drop 2) h &&
          (decide (h.take (h.length - (a.drop 2).length - 1) ≠ []) &&
            decide ('.' ∉ h.take (h.length - (a.drop 2).length - 1))))))

/-- Host matching as claim C4 words it, with port stripping and
case-insensitive comparison. -/
def claimed_host_match (host pat : List Char) : Bool :=
  claimedEntryMatch (lowerChars (strip_port host)) (lowerChars pat)

/-! ## In-container agent: file path policy (`ProcessAPI.write_file` / `read_file`) -/

/-- Relative-path rewriting shared by `write_file` and `read_file`: a path not
starting with `/` becomes `/workspace/<path>`. -/
def rewriteRelative (p : List Char) : List Char :=
  if List.isPrefixOf (chars "/") p then p else chars "/workspace/" ++ p

/-- The path acceptance test of `ProcessAPI.write_file`: rewrite a relative
path under `/workspace`, resolve it with `os.path.realpath` (passed in as
`resolve`, since symlink resolution consults the file system; `realpath` is
the identity on an absolute, normalized, symlink-free path), and require the
resolved path to start with one of the two allowed strings. -/
def write_path_allowed (resolve : List Char → List Char) (p : List Char) : Bool :=
  [chars "/workspace", chars "/mnt/user-data/outputs"].any
    fun pre => List.isPrefixOf pre (resolve (rewriteRelative p))

/-- The path acceptance test of `ProcessAPI.read_file`. -/
def read_path_allowed (resolve : List Char → List Char) (p : List Char) : Bool :=
  [chars "/workspace", chars "/mnt/user-data"].any
    fun pre => List.isPrefixOf pre (resolve (rewriteRelative p))

/-- A path is rooted at `root` when it is `root` itself or lies below it
(`root/...`) — the confinement that the claim, the spec and the code's own
security comment describe. -/
def rootedAt (root p : List Char) : Bool :=
  decide (p = root) || List.isPrefixOf (root ++ chars "/") p

/-! ## In-container agent: `/exec` (`ProcessAPI.exec_command`) -/

/-- The body of an exec response (`ExecResult` in the spec). -/
structure ExecBody where
  exit_code : Int
  stdout : List Char
  stderr : List Char
  timed_out : Bool
deriving DecidableEq

/-- Outcome of `asyncio.create_subprocess_shell` plus
`asyncio.wait_for(process.communicate(), timeout)`: spawning may fail with an
exception message, the child may finish within the timeout, or the wait may
time out. -/
inductive SpawnOutcome where
  | failed (msg : List Char)
  | completes (exit_code : Int) (stdout stderr : List Char)
  | timesOut
deriving DecidableEq

/-- Process-management action taken by the `/exec` handler on its child:
`kill` models `process.kill()` (the termination signal), `wait` models
`await process.wait()`. -/
inductive ChildAction where
  | kill
  | wait
deriving DecidableEq

/-- An HTTP response of the `/exec` handler: either an early 4xx error body or
a 200 response carrying an `ExecBody`. -/
inductive ExecHttpResponse where
  | errorBody (status : Nat) (error : List Char)
  | body (b : ExecBody)
deriving DecidableEq

/-- A request to `/exec` as the handler sees it: unparsable JSON, a missing
`command` field, or a command whose spawn has the given outcome. -/
inductive ExecRequest where
  | badJson
  | missingCommand
  | cmd (outcome : SpawnOutcome)

/-- The command-running part of `ProcessAPI.exec_command`: every spawn outcome
is encoded as a JSON body; on timeout the child is killed and awaited and the
body carries `timed_out=true, exit_code=-1`; on spawn failure the body carries
`exit_code=-1` and the exception message in `stderr`. -/
def exec_command_run : SpawnOutcome → List ChildAction × ExecBody
  | .failed msg => ([], ⟨-1, [], msg, false⟩)
  | .completes rc out err => ([], ⟨rc, out, err, false⟩)
  | .timesOut => ([.kill, .wait], ⟨-1, [], chars "Command timed out", true⟩)

/-- The single-quote character, written via its code point. -/
def squote : Char := Char.ofNat 39

/-- The `/exec` handler: malformed transport input gets a 400 error body;
every spawnable command gets a 200 response with the encoded outcome. -/
def exec_command_handler : ExecRequest → ExecHttpResponse
  | .badJson => .errorBody 400 (chars "Invalid JSON")
  | .missingCommand =>
      .errorBody 400 (chars "Missing " ++ squote :: chars "command" ++ squote :: chars " field")
  | .cmd o => .body (exec_command_run o).2

/-! ## Session manager: pip package validation (`SandboxManager.pip_install`) -/

/-- `[A-Za-z0-9]`. -/
def isAsciiAlphanum (c : Char) : Bool := c.isUpper || c.isLower || c.isDigit

/-- Characters allowed after the first in a package name: `[A-Za-z0-9._-]`. -/
def isNameChar (c : Char) : Bool :=
  isAsciiAlphanum c || c == '.' || c == '_' || c == '-'

/-- Characters allowed inside bracketed extras: `[A-Za-z0-9,._-]`. -/
def isExtraChar (c : Char) : Bool :=
  isAsciiAlphanum c || c == ',' || c == '.' || c == '_' || c == '-'

/-- Version-operator characters: `[<>=!~]`. -/
def isOpChar (c : Char) : Bool :=
  c == '<' || c == '>' || c == '=' || c == '!' || c == '~'

/-- Version-value characters: `[A-Za-z0-9.*,<>=!~]`. -/
def isVersionChar (c : Char) : Bool :=
  isAsciiAlphanum c || c == '.' || c == '*' || c == ',' || isOpChar c

/-- Matcher for the optional version suffix `(?:[<>=!~]+[A-Za-z0-9.*,<>=!~]+)?`
of `_PIP_PACKAGE_PATTERN`, running to the true end of the (newline-stripped)
input: the trailing-newline tolerance of Python's `$` is factored out once in
`pip_package_match`, which is sound because no character class of the pattern
contains a newline and its only `$` is the terminal anchor. Every operator
character is also a value character, so the backtracking regex accepts a
non-empty suffix exactly when its first character is an operator, it has at
least two characters, and every later character is a value character. -/
def versionSuffixMatch : List Char → Bool
  | [] => true
  | [_] => false
  | c :: rest => isOpChar c && rest.all isVersionChar

/-- Matcher for `_PIP_PACKAGE_PATTERN` after the leading name characters have
been consumed: optional `\[[A-Za-z0-9,._-]+\]` extras, then the optional
version suffix to the end of the (newline-stripped) input. -/
def extrasAndVersionMatch : List Char → Bool
  | '[' :: rest =>
      decide (rest.takeWhile isExtraChar ≠ []) &&
        (match rest.dropWhile isExtraChar with
         | ']' :: tail => versionSuffixMatch tail
         | _ => false)
  | s => versionSuffixMatch s

/-- The identifier+extras+version grammar between the anchors of
`_PIP_PACKAGE_PATTERN` — the grammar claim C8 names:
`[A-Za-z0-9][A-Za-z0-9._-]*` followed by optional bracketed extras and an
optional version specifier, covering the whole input. The character classes
make the regex deterministic, so greedy scanning is equivalent to the
backtracking search. -/
def pip_grammar_match : List Char → Bool
  | [] => false
  | c :: rest => isAsciiAlphanum c && extrasAndVersionMatch (rest.dropWhile isNameChar)

/-- `SandboxManager._PIP_PACKAGE_PATTERN.match`: the pattern ends in `$`, and
Python's `$` matches at the end of the string or just before a newline at the
end of the string, so the anchored pattern accepts exactly the grammar,
optionally followed by one trailing newline. (No class of the pattern
contains a newline, so the newline can come only from `$`.) -/
def pip_package_match (s : List Char) : Bool :=
  pip_grammar_match s ||
    (decide (s.getLast? = some '\n') && pip_grammar_match s.dropLast)

/-- Result of `SandboxManager.pip_install` after session lookup succeeded: an
immediate error response, or the shell command handed to `exec_command`. -/
inductive PipInstallResult where
  | response (r : ExecBody)
  | runsCommand (cmd : List Char)
deriving DecidableEq

/-- Single-quoting of a validated package in the command interpolation. -/
def quotePkg (p : List Char) : List Char :=
  squote :: p ++ [squote]

/-- `SandboxManager.pip_install`: refuse unless both PyPI hosts are in the
session's allowlist; return an error response naming the first package that
fails the pattern; otherwise build the `pip install --user` command over the
quoted packages. -/
def pip_install (allowed_hosts packages : List (List Char)) : PipInstallResult :=
  if ¬ (chars "pypi.org" ∈ allowed_hosts ∧
        chars "files.pythonhosted.org" ∈ allowed_hosts) then
    .response ⟨-1, [],
      chars "pip install requires pypi.org and files.pythonhosted.org in allowed_hosts",
      false⟩
  else
    match packages.find? (fun p => ! pip_package_match p) with
    | some bad => .response ⟨-1, [], chars "Invalid package specifier: " ++ bad, false⟩
    | none => .runsCommand (chars "pip install --user " ++ joinChar ' ' (packages.map quotePkg))

/-! ## Token service: base64 -/

/-- The URL-safe base64 alphabet (`base64.urlsafe_b64encode` /
`base64.urlsafe_b64decode`). -/
def b64urlAlphabet : List Char :=
  chars "ABCDEFGHIJKLMNOPQRSTUVWXYZabcdefghijklmnopqrstuvwxyz0123456789-_"

/-- The standard base64 alphabet (`base64.b64decode`, used by the proxy for
the Basic credentials). -/
def b64stdAlphabet : List Char :=
  chars "ABCDEFGHIJKLMNOPQRSTUVWXYZabcdefghijklmnopqrstuvwxyz0123456789+/"

/-- Character of a 6-bit group. -/
def b64chr (alpha : List Char) (i : Nat) : Char :=
  match alpha.get? i with
  | some c => c
  | none => 'A'

/-- Value of an alphabet character. -/
def b64val (alpha : List Char) (c : Char) : Option Nat :=
  alpha.indexOf? c

/-- Unpadded base64 of a byte list, three bytes to four characters
(`base64.*_b64encode(...).rstrip(b"=")`). -/
def b64encode (alpha : List Char) : List Nat → List Char
  | a :: b :: c :: rest =>
      b64chr alpha (a / 4) :: b64chr alpha (a % 4 * 16 + b / 16) ::
        b64chr alpha (b % 16 * 4 + c / 64) :: b64chr alpha (c % 64) ::
          b64encode alpha rest
  | [a, b] => [b64chr alpha (a / 4), b64chr alpha (a % 4 * 16 + b / 16),
      b64chr alpha (b % 16 * 4)]
  | [a] => [b64chr alpha (a / 4), b64chr alpha (a % 4 * 16)]
  | [] => []

/-- One full 4-character group to three bytes. -/
def b64decodeGroup (alpha : List Char) (c1 c2 c3 c4 : Char) : Option (List Nat) := do
  let v1 ← b64val alpha c1
  let v2 ← b64val alpha c2
  let v3 ← b64val alpha c3
  let v4 ← b64val alpha c4
  pure [v1 * 4 + v2 / 16, v2 % 16 * 16 + v3 / 4, v3 % 4 * 64 + v4]

/-- The final 4-character group, honouring `=` padding. -/
def b64decodeLast (alpha : List Char) (c1 c2 c3 c4 : Char) : Option (List Nat) :=
  if c3 = '=' ∧ c4 = '=' then do
    let v1 ← b64val alpha c1
    let v2 ← b64val alpha c2
    pure [v1 * 4 + v2 / 16]
  else if c4 = '=' then do
    let v1 ← b64val alpha c1
    let v2 ← b64val alpha c2
    let v3 ← b64val alpha c3
    pure [v1 * 4 + v2 / 16, v2 % 16 * 16 + v3 / 4]
  else b64decodeGroup alpha c1 c2 c3 c4

/-- Base64 decoding of a padded string (`base64.*_b64decode`, modelled for
input over the alphabet: a length not a multiple of four, or a character
outside the alphabet other than trailing `=`, fails). -/
def b64decode (alpha : List Char) : List Char → Option (List Nat)
  | [] => some []
  | c1 :: c2 :: c3 :: c4 :: rest =>
      if rest = [] then b64decodeLast alpha c1 c2 c3 c4
      else do
        let g ← b64decodeGroup alpha c1 c2 c3 c4
        let r ← b64decode alpha rest
        pure (g ++ r)
  | _ => none

/-- The re-padding in `_verify_jwt`: append `"=" * (4 - len % 4)` when the
length is not a multiple of four. -/
def repad (s : List Char) : List Char :=
  if 4 - s.length % 4 ≠ 4 then s ++ List.replicate (4 - s.length % 4) '=' else s

/-! ## Token service: JWT mint (`SandboxManager._generate_proxy_jwt`) and
verify (`EgressProxy._verify_jwt`) -/

/-- The JWT payload minted by `SandboxManager._generate_proxy_jwt`. -/
structure ProxyJwtPayload where
  iss : List Char
  session_id : List Char
  tenant_id : Option (List Char)
  allowed_hosts : List Char
  exp : Nat
deriving DecidableEq

/-- The payload dict built by `_generate_proxy_jwt`: fixed issuer, the
session's data, the comma-joined allowlist and the expiry instant. -/
def minted_payload (session_id : List Char) (tenant_id : Option (List Char))
    (allowed_hosts : List (List Char)) (exp : Nat) : ProxyJwtPayload :=
  ⟨chars "sandbox-egress-control", session_id, tenant_id,
    joinChar ',' allowed_hosts, exp⟩

/-- The fixed JWT header `typ JWT / alg HS256` as serialized by `json.dumps`
with `separators=(",", ":")`. -/
def jwtHeaderJson : List Char :=
  chars "\x7b\"typ\":\"JWT\",\"alg\":\"HS256\"\x7d"

/-- UTF-8 bytes of an ASCII string (all text handled here is ASCII). -/
def strBytes (s : List Char) : List Nat := s.map Char.toNat

/-- The `header_b64 "." payload_b64` message of
`SandboxManager._generate_proxy_jwt`: the payload is serialized (`jsonEncode`
stands for `json.dumps` with compact separators) and both halves are
base64url-encoded without padding. The message is then MACed with the signing
key (`mac` stands for HMAC-SHA256, an arbitrary deterministic function of key
and message bytes) and the unpadded base64url signature appended. -/
def jwt_message (jsonEncode : ProxyJwtPayload → List Nat)
    (session_id : List Char) (tenant_id : Option (List Char))
    (allowed_hosts : List (List Char)) (exp : Nat) : List Char :=
  b64encode b64urlAlphabet (strBytes jwtHeaderJson) ++
    '.' :: b64encode b64urlAlphabet
      (jsonEncode (minted_payload session_id tenant_id allowed_hosts exp))

/-- The signed token: `message "." signature`. -/
def generate_proxy_jwt (mac : List Nat → List Nat → List Nat)
    (jsonEncode : ProxyJwtPayload → List Nat)
    (signing_key session_id : List Char) (tenant_id : Option (List Char))
    (allowed_hosts : List (List Char)) (exp : Nat) : List Char :=
  jwt_message jsonEncode session_id tenant_id allowed_hosts exp ++
    '.' :: b64encode b64urlAlphabet
      (mac (strBytes signing_key)
        (strBytes (jwt_message jsonEncode session_id tenant_id allowed_hosts exp)))

/-- Result of `EgressProxy._verify_jwt`, with the source's failure log
branches told apart: `errInvalid` for a wrong part count, a signature
mismatch or a decode exception, `errExpired` for `payload.exp < now`. (The
source returns `None` for every failure; the log message distinguishes the
branches.) -/
inductive VerifyResult where
  | ok (payload : ProxyJwtPayload)
  | errInvalid
  | errExpired
deriving DecidableEq

/-- Expiry check of `_verify_jwt` on decoded payload bytes: reject as
expired exactly when `payload.exp < now` (`jsonDecode` stands for
`json.loads`; an unparsable payload raises, caught as invalid). -/
def verify_payload_bytes (jsonDecode : List Nat → Option ProxyJwtPayload)
    (bytes : List Nat) (now : Nat) : VerifyResult :=
  match jsonDecode bytes with
  | some payload => if payload.exp < now then .errExpired else .ok payload
  | none => .errInvalid

/-- Payload decoding of `_verify_jwt`: re-pad the base64url payload segment,
decode it, then check expiry. -/
def verify_payload_b64 (jsonDecode : List Nat → Option ProxyJwtPayload)
    (payload_b64 : List Char) (now : Nat) : VerifyResult :=
  match b64decode b64urlAlphabet (repad payload_b64) with
  | some bytes => verify_payload_bytes jsonDecode bytes now
  | none => .errInvalid

/-- Signature check of `_verify_jwt` over the split token: exactly three
parts, the MAC recomputed over `header "." payload` must equal the
transmitted signature (`hmac.compare_digest` is equality of the strings). -/
def verify_parts (mac : List Nat → List Nat → List Nat)
    (jsonDecode : List Nat → Option ProxyJwtPayload)
    (signing_key : List Char) (parts : List (List Char)) (now : Nat) : VerifyResult :=
  match parts with
  | [header_b64, payload_b64, signature_b64] =>
      if signature_b64
          = b64encode b64urlAlphabet
              (mac (strBytes signing_key) (strBytes (header_b64 ++ '.' :: payload_b64)))
      then verify_payload_b64 jsonDecode payload_b64 now
      else .errInvalid
  | _ => .errInvalid

/-- `EgressProxy._verify_jwt`: split on `"."` and run the signature, decode
and expiry checks. -/
def verify_jwt (mac : List Nat → List Nat → List Nat)
    (jsonDecode : List Nat → Option ProxyJwtPayload)
    (signing_key token : List Char) (now : Nat) : VerifyResult :=
  verify_parts mac jsonDecode signing_key (splitOnChar '.' token) now

/-! ## A concrete JSON codec for the payload, used in concrete evaluations -/

/-- Decimal digits of a natural number. -/
def natDecimal (n : Nat) : List Char := Nat.toDigits 10 n

/-- A JSON string literal for text needing no escapes (the only kind the
sources mint). -/
def jsonStr (s : List Char) : List Char := '"' :: s ++ ['"']

/-- `json.dumps(payload, separators=(",", ":"))` over the mint's payload dict
in insertion order, for payloads whose strings need no JSON escaping. -/
def jsonEncodePayload (p : ProxyJwtPayload) : List Nat :=
  strBytes
    (chars "\x7b\"iss\":" ++ jsonStr p.iss ++
      chars ",\"session_id\":" ++ jsonStr p.session_id ++
      chars ",\"tenant_id\":" ++
        (match p.tenant_id with
         | some t => jsonStr t
         | none => chars "null") ++
      chars ",\"allowed_hosts\":" ++ jsonStr p.allowed_hosts ++
      chars ",\"exp\":" ++ natDecimal p.exp ++ chars "\x7d")

/-- Strip an expected literal from the front of the input. -/
def expectLit (lit s : List Char) : Option (List Char) :=
  if List.isPrefixOf lit s then some (s.drop lit.length) else none

/-- Parse a JSON string literal without escapes. -/
def parseJsonStr (s : List Char) : Option (List Char × List Char) :=
  match s with
  | '"' :: rest =>
      match rest.dropWhile (· ≠ '"') with
      | '"' :: tail => some (rest.takeWhile (· ≠ '"'), tail)
      | _ => none
  | _ => none

/-- Parse a decimal natural number. -/
def parseDecimal (s : List Char) : Option (Nat × List Char) :=
  if s.takeWhile Char.isDigit = [] then none
  else some
    ((s.takeWhile Char.isDigit).foldl (fun acc c => acc * 10 + (c.toNat - 48)) 0,
      s.dropWhile Char.isDigit)

/-- Inverse of `jsonEncodePayload` on its image, standing in for `json.loads`
in concrete evaluations. -/
def jsonDecodePayload (bytes : List Nat) : Option ProxyJwtPayload := do
  let s0 := bytes.map Char.ofNat
  let s1 ← expectLit (chars "\x7b\"iss\":") s0
  let (iss, s2) ← parseJsonStr s1
  let s3 ← expectLit (chars ",\"session_id\":") s2
  let (sid, s4) ← parseJsonStr s3
  let s5 ← expectLit (chars ",\"tenant_id\":") s4
  let (tid, s6) ←
    (match expectLit (chars "null") s5 with
     | some s => some ((none : Option (List Char)), s)
     | none => (parseJsonStr s5).map fun r => (some r.1, r.2))
  let s7 ← expectLit (chars ",\"allowed_hosts\":") s6
  let (ah, s8) ← parseJsonStr s7
  let s9 ← expectLit (chars ",\"exp\":") s8
  let (e, s10) ← parseDecimal s9
  let s11 ← expectLit (chars "\x7d") s10
  if s11 = [] then some ⟨iss, sid, tid, ah, e⟩ else none

/-! ## Egress proxy: policy resolution (`EgressProxy`) -/

/-- `DEFAULT_ALLOWED_HOSTS` of the proxy. -/
def DEFAULT_ALLOWED_HOSTS : List (List Char) :=
  [chars "pypi.org", chars "files.pythonhosted.org", chars "registry.npmjs.org",
    chars "github.com", chars "raw.githubusercontent.com",
    chars "objects.githubusercontent.com", chars "crates.io",
    chars "static.crates.io"]

/-- `EgressProxy._extract_token_from_auth`: require the `Basic ` scheme,
decode the standard-base64 credentials (ASCII is assumed for the `.decode()`
step), require a `:` and a password with the `jwt_` marker; any failure
yields `none`. -/
def extract_token_from_auth (auth_header : List Char) : Option (List Char) :=
  if auth_header = [] then none
  else if ¬ List.isPrefixOf (chars "Basic ") auth_header then none
  else
    match b64decode b64stdAlphabet (auth_header.drop 6) with
    | none => none
    | some bytes =>
        if bytes.all (· < 128) then
          if ':' ∈ bytes.map Char.ofNat then
            let password := ((bytes.map Char.ofNat).dropWhile (· ≠ ':')).drop 1
            if List.isPrefixOf (chars "jwt_") password then some (password.drop 4)
            else none
          else none
        else none

/-- `EgressProxy._get_allowed_hosts`: extract a token from the
`Proxy-Authorization` header; a present, non-empty token that verifies yields
the comma-split, stripped `allowed_hosts` of its payload; everything else —
absent or malformed credentials, but equally a present token whose signature
fails or which has expired — falls back to the configured defaults. -/
def get_allowed_hosts (mac : List Nat → List Nat → List Nat)
    (jsonDecode : List Nat → Option ProxyJwtPayload)
    (signing_key : List Char) (defaults : List (List Char))
    (auth_header : List Char) (now : Nat) : List (List Char) :=
  match extract_token_from_auth auth_header with
  | some token =>
      if token ≠ [] then
        match verify_jwt mac jsonDecode signing_key token now with
        | .ok payload => (splitOnChar ',' payload.allowed_hosts).map stripChars
        | _ => defaults
      else defaults
  | none => defaults

/-- Decision of the plain-HTTP handler `EgressProxy.handle_request`, up to
the point of forwarding. -/
inductive ProxyDecision where
  | badRequest
  | blocked403 (host : List Char)
  | forwardsTo (host : List Char)
deriving DecidableEq

/-- `EgressProxy.handle_request` (policy part): an absolute-form `http://`
URL is required, the host is the maximal run after `http://` free of `/` and
`:` (the regex `http://([^/:]+)`, empty meaning no match, 400), and the
allowlist resolved from the credentials decides 403 versus forwarding. -/
def handle_request_policy (mac : List Nat → List Nat → List Nat)
    (jsonDecode : List Nat → Option ProxyJwtPayload)
    (signing_key : List Char) (defaults : List (List Char))
    (url auth_header : List Char) (now : Nat) : ProxyDecision :=
  if ¬ List.isPrefixOf (chars "http://") url then .badRequest
  else
    match (url.drop 7).takeWhile (fun c => !(c == '/' || c == ':')) with
    | [] => .badRequest
    | host =>
        if is_host_allowed host
            (get_allowed_hosts mac jsonDecode signing_key defaults auth_header now)
        then .forwardsTo host
        else .blocked403 host

/-- Basic credentials `sandbox:jwt_abc`, whose token `abc` is present but has
no three dot-separated parts, so its verification fails. -/
def c1BadAuthHeader : List Char :=
  chars "Basic " ++ b64encode b64stdAlphabet (strBytes (chars "sandbox:jwt_abc"))

/-! ## Session manager: session table (`SandboxManager`) -/

/-- The table-relevant fields of `SandboxSession`. -/
structure SessionRec where
  created_at : Nat
  last_activity : Nat
  allowed_hosts : List (List Char)
deriving DecidableEq

/-- The manager's `self.sessions` dictionary, as a finite map. -/
def SessionTable := List Char → Option SessionRec

/-- The empty session table. -/
def emptyTable : SessionTable := fun _ => none

/-- Dictionary assignment `self.sessions[sid] = session`. -/
def tableSet (t : SessionTable) (k : List Char) (v : SessionRec) : SessionTable :=
  fun k2 => if k2 = k then some v else t k2

/-- Dictionary removal, the effect of `self.sessions.pop(sid, None)`. -/
def tableErase (t : SessionTable) (k : List Char) : SessionTable :=
  fun k2 => if k2 = k then none else t k2

/-- `SandboxManager.create_session` restricted to its session-table effect,
`now` being the `time.time()` reading of the call: an existing id only gets
its `last_activity` refreshed; a fresh id is inserted with
`created_at = last_activity = now` (container creation and the readiness
probe are external effects between the source's two clock reads). -/
def create_session (now : Nat) (sid : List Char) (hosts : List (List Char))
    (t : SessionTable) : List Char × SessionTable :=
  match t sid with
  | some r => (sid, tableSet t sid { r with last_activity := now })
  | none => (sid, tableSet t sid ⟨now, now, hosts⟩)

/-- `SandboxManager.get_session`: refresh `last_activity` on a hit. -/
def get_session (now : Nat) (sid : List Char) (t : SessionTable) :
    Option SessionRec × SessionTable :=
  match t sid with
  | some r => (some { r with last_activity := now },
      tableSet t sid { r with last_activity := now })
  | none => (none, t)

/-- Outcome of `container.remove(force=True)` at the engine. -/
inductive RemoveOutcome where
  | removed
  | notFound
  | apiError
deriving DecidableEq

/-- `SandboxManager.destroy_session`: pop the session from the table first;
an absent id returns `false`; then ask the engine to remove the container,
where a missing container (`NotFound`) counts as success and an engine
`APIError` yields `false` — with the session already gone from the table. -/
def destroy_session (engine : List Char → RemoveOutcome) (sid : List Char)
    (t : SessionTable) : Bool × SessionTable :=
  match t sid with
  | none => (false, t)
  | some _ =>
      match engine sid with
      | .removed => (true, tableErase t sid)
      | .notFound => (true, tableErase t sid)
      | .apiError => (false, tableErase t sid)

/-- The session-table effect of `SandboxManager.exec_command`: it begins with
`await self.get_session(session_id)`, its only table access. -/
def exec_command_table (now : Nat) (sid : List Char) (t : SessionTable) : SessionTable :=
  (get_session now sid t).2

/-- The session-table effect of `SandboxManager.write_file` (via
`get_session`). -/
def write_file_table (now : Nat) (sid : List Char) (t : SessionTable) : SessionTable :=
  (get_session now sid t).2

/-- The session-table effect of `SandboxManager.read_file` (via
`get_session`). -/
def read_file_table (now : Nat) (sid : List Char) (t : SessionTable) : SessionTable :=
  (get_session now sid t).2

/-- Manager states reachable by a trace of manager operations whose
`time.time()` readings never decrease; the index is the clock at the latest
step. -/
inductive Reachable : Nat → SessionTable → Prop where
  | init : Reachable 0 emptyTable
  | tick {t s now} : Reachable t s → t ≤ now → Reachable now s
  | create {t s now sid hosts} : Reachable t s → t ≤ now →
      Reachable now (create_session now sid hosts s).2
  | get {t s now sid} : Reachable t s → t ≤ now →
      Reachable now (get_session now sid s).2
  | destroy {t s now engine sid} : Reachable t s → t ≤ now →
      Reachable now (destroy_session engine sid s).2

/-! ## Session manager: container network configuration
(`SandboxManager._create_container`) -/

/-- Python truthiness of an optional string. -/
def truthyStr : Option (List Char) → Bool
  | none => false
  | some s => decide (s ≠ [])

/-- `SandboxManager._generate_proxy_url`: the empty string without a truthy
proxy host; otherwise the freshly minted token embedded as the password of
the `sandbox` user. -/
def generate_proxy_url (mac : List Nat → List Nat → List Nat)
    (jsonEncode : ProxyJwtPayload → List Nat)
    (proxy_host : Option (List Char)) (proxy_port : Nat)
    (signing_key session_id : List Char) (tenant_id : Option (List Char))
    (allowed_hosts : List (List Char)) (exp : Nat) : List Char :=
  match proxy_host with
  | none => []
  | some h =>
      if h = [] then []
      else
        chars "http://sandbox:jwt_" ++
          generate_proxy_jwt mac jsonEncode signing_key session_id tenant_id
            allowed_hosts exp ++
          '@' :: h ++ ':' :: natDecimal proxy_port

/-- The network-relevant part of the container spec built by
`SandboxManager._create_container`. -/
structure ContainerNetConfig where
  network_mode : Option (List Char)
  environment : List (List Char × List Char)
deriving DecidableEq

/-- `SandboxManager._create_container`, network decision: with a truthy proxy
host and a non-empty allowlist, default (bridge) networking plus the four
proxy variables all set to the proxy URL; with an empty allowlist — proxy
configured or not — `network_mode="none"`; otherwise default networking with
no proxy variables. -/
def create_container_net (mac : List Nat → List Nat → List Nat)
    (jsonEncode : ProxyJwtPayload → List Nat)
    (proxy_host : Option (List Char)) (proxy_port : Nat)
    (signing_key session_id : List Char) (tenant_id : Option (List Char))
    (allowed_hosts : List (List Char)) (exp : Nat) : ContainerNetConfig :=
  if truthyStr proxy_host && decide (allowed_hosts ≠ []) then
    { network_mode := none,
      environment :=
        [(chars "HTTP_PROXY",
            generate_proxy_url mac jsonEncode proxy_host proxy_port signing_key
              session_id tenant_id allowed_hosts exp),
          (chars "HTTPS_PROXY",
            generate_proxy_url mac jsonEncode proxy_host proxy_port signing_key
              session_id tenant_id allowed_hosts exp),
          (chars "http_proxy",
            generate_proxy_url mac jsonEncode proxy_host proxy_port signing_key
              session_id tenant_id allowed_hosts exp),
          (chars "https_proxy",
            generate_proxy_url mac jsonEncode proxy_host proxy_port signing_key
              session_id tenant_id allowed_hosts exp)] }
  else if decide (allowed_hosts = []) then
    { network_mode := some (chars "none"), environment := [] }
  else { network_mode := none, environment := [] }

/-! ## Theorems -/

/-- The code's per-entry test agrees with the amended spec wording: the only
difference is writing `allowed[1:]` as `"." + allowed[2:]` for a `*.` pattern,
and the order of the two disjuncts. -/
theorem hostEntryAllowed_eq_specEntryMatch (h a : List Char) :
    hostEntryAllowed h a = specEntryMatch h a := by
  have hstar : chars "*." = ['*', '.'] := rfl
  match a with
  | [] => rfl
  | [c] => simp [hostEntryAllowed, specEntryMatch, hstar, List.isPrefixOf]
  | c1 :: c2 :: t =>
    by_cases h1 : c1 = '*'
    · by_cases h2 : c2 = '.'
      · subst h1; subst h2
        simp [hostEntryAllowed, specEntryMatch, hstar, List.isPrefixOf,
          Bool.or_comm]
      · have hb : ('.' == c2) = false := beq_eq_false_iff_ne.mpr (Ne.symm h2)
        simp [hostEntryAllowed, specEntryMatch, hstar, List.isPrefixOf, hb]
    · have hb : ('*' == c1) = false := beq_eq_false_iff_ne.mpr (Ne.symm h1)
      simp [hostEntryAllowed, specEntryMatch, hstar, List.isPrefixOf, hb]

/-- C4: the code's wildcard matching accepts `a.b.example.com` for the pattern
`*.example.com`, although it is neither `example.com` itself nor a one-level
subdomain of it — the claimed one-level wildcard semantics is refuted. -/
theorem c4_wildcard_depth_counterexample :
    is_host_allowed (chars "a.b.example.com") [chars "*.example.com"] = true ∧
    claimed_host_match (chars "a.b.example.com") (chars "*.example.com") = false := by
  decide

/-- C4 (amended): `_is_host_allowed` strips any port from the request host,
compares case-insensitively, and accepts exactly when some allowlist entry
matches, an entry matching on exact equality or, for a wildcard `*.D`, when
the host is `D` itself or an any-depth subdomain of `D` (ends with `.D`); no
path component is consulted. -/
theorem c4_host_match_characterization (host : List Char)
    (allowed_hosts : List (List Char)) :
    is_host_allowed host allowed_hosts
      = allowed_hosts.any (spec_host_match host) := by
  unfold is_host_allowed spec_host_match
  induction allowed_hosts with
  | nil => rfl
  | cons a as ih =>
    simp only [List.any_cons, ih, hostEntryAllowed_eq_specEntryMatch]

/-- C2 (code bug): the agent's path policy tests the resolved path with a
plain string-prefix check (`resolved_path.startswith(p)`), so the write path
`/workspaceevil/x` — absolute, normalized and symlink-free, hence equal to its
own `realpath` — is accepted although it is rooted at neither `/workspace`
nor `/mnt/user-data/outputs`; the read check accepts the sibling directory
`/mnt/user-datax/secret` the same way. -/
theorem c2_sibling_root_escape :
    write_path_allowed id (chars "/workspaceevil/x") = true ∧
    rootedAt (chars "/workspace") (chars "/workspaceevil/x") = false ∧
    rootedAt (chars "/mnt/user-data/outputs") (chars "/workspaceevil/x") = false ∧
    read_path_allowed id (chars "/mnt/user-datax/secret") = true ∧
    rootedAt (chars "/workspace") (chars "/mnt/user-datax/secret") = false ∧
    rootedAt (chars "/mnt/user-data") (chars "/mnt/user-datax/secret") = false := by
  decide

/-- C7: on timeout `/exec` kills and awaits the child and answers with
`timed_out=true, exit_code=-1`; on spawn failure it answers with
`exit_code=-1` and the message in `stderr`; and for every spawn outcome the
handler produces a 200 response with the failure encoded in the body — it
never surfaces a command-level failure to the transport. -/
theorem c7_exec_failure_encoding :
    (exec_command_run .timesOut
      = ([.kill, .wait], ⟨-1, [], chars "Command timed out", true⟩)) ∧
    (∀ msg, exec_command_run (.failed msg) = ([], ⟨-1, [], msg, false⟩)) ∧
    (∀ o : SpawnOutcome, ∃ b : ExecBody,
      exec_command_handler (.cmd o) = .body b) :=
  ⟨rfl, fun _ => rfl, fun o => ⟨(exec_command_run o).2, rfl⟩⟩

/-- C8 (amended): `pip_install` hands a command to the executor only when
both PyPI hosts are allowed and every package matches
`_PIP_PACKAGE_PATTERN` — the identifier+extras+version grammar optionally
followed by one trailing newline, which Python's `$` anchor also accepts —
and the command is exactly the interpolation of the quoted packages; a
missing host refuses the whole request; a single non-matching package means
no command is ever produced. -/
theorem c8_pip_install_validation (allowed_hosts packages : List (List Char)) :
    (∀ cmd, pip_install allowed_hosts packages = .runsCommand cmd →
      (chars "pypi.org" ∈ allowed_hosts ∧
        chars "files.pythonhosted.org" ∈ allowed_hosts) ∧
      (∀ p ∈ packages, pip_package_match p = true) ∧
      cmd = chars "pip install --user " ++ joinChar ' ' (packages.map quotePkg)) ∧
    ((chars "pypi.org" ∉ allowed_hosts ∨
        chars "files.pythonhosted.org" ∉ allowed_hosts) →
      pip_install allowed_hosts packages
        = .response ⟨-1, [],
            chars "pip install requires pypi.org and files.pythonhosted.org in allowed_hosts",
            false⟩) ∧
    (∀ p ∈ packages, pip_package_match p = false →
      ∀ cmd, pip_install allowed_hosts packages ≠ .runsCommand cmd) := by
  by_cases hh : chars "pypi.org" ∈ allowed_hosts ∧
      chars "files.pythonhosted.org" ∈ allowed_hosts
  · cases hfind : packages.find? (fun p => ! pip_package_match p) with
    | some bad =>
        refine ⟨?_, ?_, ?_⟩
        · intro cmd hcmd
          rw [pip_install, if_neg (not_not_intro hh), hfind] at hcmd
          exact absurd hcmd (by simp)
        · intro habs
          rcases habs with habs | habs <;> exact absurd (by tauto) habs
        · intro p hp hpm cmd hcmd
          rw [pip_install, if_neg (not_not_intro hh), hfind] at hcmd
          exact absurd hcmd (by simp)
    | none =>
        have hall : ∀ p ∈ packages, pip_package_match p = true := by
          intro p hp
          have := List.find?_eq_none.mp hfind p hp
          simpa using this
        refine ⟨?_, ?_, ?_⟩
        · intro cmd hcmd
          rw [pip_install, if_neg (not_not_intro hh), hfind] at hcmd
          refine ⟨hh, hall, ?_⟩
          simpa using hcmd.symm
        · intro habs
          rcases habs with habs | habs <;> exact absurd (by tauto) habs
        · intro p hp hpm cmd
          exact absurd (hall p hp) (by simp [hpm])
  · have hpi : pip_install allowed_hosts packages
        = .response ⟨-1, [],
            chars "pip install requires pypi.org and files.pythonhosted.org in allowed_hosts",
            false⟩ := by
      rw [pip_install, if_pos hh]
    refine ⟨?_, fun _ => hpi, ?_⟩
    · intro cmd hcmd
      rw [hpi] at hcmd
      exact absurd hcmd (by simp)
    · intro p hp hpm cmd hcmd
      rw [hpi] at hcmd
      exact absurd hcmd (by simp)

/-- C8 witness: on a session allowing both PyPI hosts, installing
`requests` and `numpy>=1.21,<2.0` produces a command, and the main theorem
then yields the host membership and per-package validation facts. -/
theorem c8_pip_install_validation_witness :
    (chars "pypi.org" ∈ [chars "pypi.org", chars "files.pythonhosted.org"] ∧
      chars "files.pythonhosted.org"
        ∈ [chars "pypi.org", chars "files.pythonhosted.org"]) ∧
    (∀ p ∈ [chars "requests", chars "numpy>=1.21,<2.0"],
      pip_package_match p = true) := by
  have h := (c8_pip_install_validation
      [chars "pypi.org", chars "files.pythonhosted.org"]
      [chars "requests", chars "numpy>=1.21,<2.0"]).1
      (chars "pip install --user " ++ joinChar ' '
        ([chars "requests", chars "numpy>=1.21,<2.0"].map quotePkg))
      (by decide)
  exact ⟨h.1, h.2.1⟩

/-- C8: the anchored pattern accepts a single trailing newline (Python's `$`
matches just before a newline at the end of the string), so `pip_install`
validates `"requests\n"` — a specifier outside the claimed
identifier+extras+version grammar — and interpolates it into the executed
shell command instead of rejecting the batch, refuting the original claim. -/
theorem c8_trailing_newline_counterexample :
    pip_grammar_match (chars "requests" ++ ['\n']) = false ∧
    pip_package_match (chars "requests" ++ ['\n']) = true ∧
    pip_install [chars "pypi.org", chars "files.pythonhosted.org"]
        [chars "requests" ++ ['\n']]
      = .runsCommand (chars "pip install --user " ++
          joinChar ' ' ([chars "requests" ++ ['\n']].map quotePkg)) := by
  decide

/-- C6: `destroy_session` on an absent id returns `false` and leaves the
table as is; on a present id the session is removed and the return is `true`
whenever the engine removes the container or reports it already missing
(`NotFound` counts as success), so a second destroy of the same id then
returns `false`. -/
theorem c6_destroy_session_semantics (engine : List Char → RemoveOutcome)
    (sid : List Char) (t : SessionTable) :
    (t sid = none → destroy_session engine sid t = (false, t)) ∧
    (∀ r, t sid = some r → engine sid ≠ .apiError →
      (destroy_session engine sid t).1 = true ∧
      (destroy_session engine sid t).2 sid = none ∧
      (destroy_session engine sid (destroy_session engine sid t).2).1 = false) ∧
    (∀ r, t sid = some r → engine sid = .notFound →
      (destroy_session engine sid t).1 = true) := by
  refine ⟨?_, ?_, ?_⟩
  · intro h
    simp [destroy_session, h]
  · intro r hr hne
    cases he : engine sid with
    | removed => simp [destroy_session, hr, he, tableErase]
    | notFound => simp [destroy_session, hr, he, tableErase]
    | apiError => exact absurd he hne
  · intro r hr he
    simp [destroy_session, hr, he]

/-- C6 witness: destroying a concrete one-session table succeeds and a second
destroy of the same id returns `false`. -/
theorem c6_destroy_session_semantics_witness :
    (destroy_session (fun _ => .removed) (chars "a")
      (tableSet emptyTable (chars "a") ⟨0, 0, []⟩)).1 = true ∧
    (destroy_session (fun _ => .removed) (chars "a")
      (destroy_session (fun _ => .removed) (chars "a")
        (tableSet emptyTable (chars "a") ⟨0, 0, []⟩)).2).1 = false := by
  have h := (c6_destroy_session_semantics (fun _ => .removed) (chars "a")
      (tableSet emptyTable (chars "a") ⟨0, 0, []⟩)).2.1 ⟨0, 0, []⟩ (by decide)
      (by decide)
  exact ⟨h.1, h.2.2⟩

/-- C10: on a present session whose container removal fails with an engine
`APIError`, `destroy_session` returns `false` yet the session is already gone
from the table — the pop precedes the engine call — so a `false` return does
not imply the session is still tabled, and no later destroy under any engine
behaviour can retry the removal: it finds no session and returns `false`
without reaching the engine. -/
theorem c10_destroy_pop_precedes_engine (engine : List Char → RemoveOutcome)
    (sid : List Char) (t : SessionTable) (r : SessionRec)
    (hpresent : t sid = some r) (hfail : engine sid = .apiError) :
    (destroy_session engine sid t).1 = false ∧
    (destroy_session engine sid t).2 sid = none ∧
    (∀ engine2, destroy_session engine2 sid (destroy_session engine sid t).2
      = (false, (destroy_session engine sid t).2)) := by
  refine ⟨?_, ?_, ?_⟩ <;> simp [destroy_session, hpresent, hfail, tableErase]

/-- C10 witness: a concrete one-session table with a failing engine returns
`false` with the session already removed. -/
theorem c10_destroy_pop_precedes_engine_witness :
    (destroy_session (fun _ => .apiError) (chars "a")
      (tableSet emptyTable (chars "a") ⟨0, 0, []⟩)).1 = false ∧
    (destroy_session (fun _ => .apiError) (chars "a")
      (tableSet emptyTable (chars "a") ⟨0, 0, []⟩)).2 (chars "a") = none := by
  have h := c10_destroy_pop_precedes_engine (fun _ => .apiError) (chars "a")
      (tableSet emptyTable (chars "a") ⟨0, 0, []⟩) ⟨0, 0, []⟩ (by decide) rfl
  exact ⟨h.1, h.2.1⟩

/-- C5: with a truthy proxy host and an empty allowlist the container still
gets `network_mode="none"` — refuting the claimed "none iff allowlist empty
and no proxy configured". -/
theorem c5_none_despite_proxy_counterexample :
    (create_container_net (fun _ _ => [1]) jsonEncodePayload
        (some (chars "proxy")) 15004 (chars "k") (chars "s") none [] 0).network_mode
      = some (chars "none") ∧
    truthyStr (some (chars "proxy")) = true := by
  exact ⟨rfl, by decide⟩

/-- C5 (amended): the network mode is `none` exactly when the session's
allowlist is empty, regardless of proxy configuration; with a truthy proxy
host and a non-empty allowlist the container keeps default (bridge)
networking and its environment carries `HTTP_PROXY`, `HTTPS_PROXY`,
`http_proxy` and `https_proxy`, all equal to the proxy URL, which embeds the
session's freshly minted token after `sandbox:jwt_`; without a truthy proxy
host no proxy variables are set. -/
theorem c5_network_mode_characterization
    (mac : List Nat → List Nat → List Nat)
    (jsonEncode : ProxyJwtPayload → List Nat)
    (proxy_host : Option (List Char)) (proxy_port : Nat)
    (signing_key session_id : List Char) (tenant_id : Option (List Char))
    (allowed_hosts : List (List Char)) (exp : Nat) :
    ((create_container_net mac jsonEncode proxy_host proxy_port signing_key
        session_id tenant_id allowed_hosts exp).network_mode
      = some (chars "none") ↔ allowed_hosts = []) ∧
    (truthyStr proxy_host = true → allowed_hosts ≠ [] →
      (create_container_net mac jsonEncode proxy_host proxy_port signing_key
          session_id tenant_id allowed_hosts exp).environment
        = [(chars "HTTP_PROXY", generate_proxy_url mac jsonEncode proxy_host
              proxy_port signing_key session_id tenant_id allowed_hosts exp),
           (chars "HTTPS_PROXY", generate_proxy_url mac jsonEncode proxy_host
              proxy_port signing_key session_id tenant_id allowed_hosts exp),
           (chars "http_proxy", generate_proxy_url mac jsonEncode proxy_host
              proxy_port signing_key session_id tenant_id allowed_hosts exp),
           (chars "https_proxy", generate_proxy_url mac jsonEncode proxy_host
              proxy_port signing_key session_id tenant_id allowed_hosts exp)]) ∧
    (∀ h, proxy_host = some h → h ≠ [] →
      generate_proxy_url mac jsonEncode proxy_host proxy_port signing_key
          session_id tenant_id allowed_hosts exp
        = chars "http://sandbox:jwt_" ++
            generate_proxy_jwt mac jsonEncode signing_key session_id tenant_id
              allowed_hosts exp ++
            '@' :: h ++ ':' :: natDecimal proxy_port) ∧
    (truthyStr proxy_host = false →
      (create_container_net mac jsonEncode proxy_host proxy_port signing_key
          session_id tenant_id allowed_hosts exp).environment = []) := by
  refine ⟨?_, ?_, ?_, ?_⟩
  · constructor
    · intro hm
      by_contra hA
      cases ht : truthyStr proxy_host <;>
        simp [create_container_net, ht, hA] at hm
    · intro hA
      simp [create_container_net, hA]
  · intro ht hne
    simp [create_container_net, ht, hne]
  · intro h hph hne
    subst hph
    simp [generate_proxy_url, hne]
  · intro ht
    by_cases hA : allowed_hosts = [] <;> simp [create_container_net, ht, hA]

/-- C5 witness: with proxy host `p`, port 1 and a one-host allowlist, all four
proxy variables are set to the proxy URL. -/
theorem c5_network_mode_characterization_witness :
    (create_container_net (fun _ _ => [1]) jsonEncodePayload (some (chars "p"))
        1 (chars "k") (chars "s") none [chars "e.com"] 9).environment
      = [(chars "HTTP_PROXY", generate_proxy_url (fun _ _ => [1])
            jsonEncodePayload (some (chars "p")) 1 (chars "k") (chars "s") none
            [chars "e.com"] 9),
         (chars "HTTPS_PROXY", generate_proxy_url (fun _ _ => [1])
            jsonEncodePayload (some (chars "p")) 1 (chars "k") (chars "s") none
            [chars "e.com"] 9),
         (chars "http_proxy", generate_proxy_url (fun _ _ => [1])
            jsonEncodePayload (some (chars "p")) 1 (chars "k") (chars "s") none
            [chars "e.com"] 9),
         (chars "https_proxy", generate_proxy_url (fun _ _ => [1])
            jsonEncodePayload (some (chars "p")) 1 (chars "k") (chars "s") none
            [chars "e.com"] 9)] :=
  (c5_network_mode_characterization (fun _ _ => [1]) jsonEncodePayload
      (some (chars "p")) 1 (chars "k") (chars "s") none [chars "e.com"] 9).2.1
    (by decide) (by decide)

/-- In every reachable manager state, each tabled session has
`created_at ≤ last_activity ≤` the state's clock. -/
theorem reachable_bounds {t : Nat} {s : SessionTable} (h : Reachable t s) :
    ∀ sid r, s sid = some r →
      r.created_at ≤ r.last_activity ∧ r.last_activity ≤ t := by
  induction h with
  | init =>
      intro sid r hr
      exact absurd hr (by simp [emptyTable])
  | tick hr hle ih =>
      intro sid r h2
      exact ⟨(ih sid r h2).1, Nat.le_trans (ih sid r h2).2 hle⟩
  | create hr hle ih =>
      rename_i t0 s0 now sid hosts
      intro sid2 r h2
      unfold create_session at h2
      cases hcase : s0 sid with
      | some r0 =>
          rw [hcase] at h2
          simp only [tableSet] at h2
          by_cases he : sid2 = sid
          · rw [if_pos he] at h2
            injection h2 with h3
            subst h3
            obtain ⟨hb1, hb2⟩ := ih sid r0 hcase
            exact ⟨Nat.le_trans hb1 (Nat.le_trans hb2 hle), Nat.le_refl now⟩
          · rw [if_neg he] at h2
            obtain ⟨hb1, hb2⟩ := ih sid2 r h2
            exact ⟨hb1, Nat.le_trans hb2 hle⟩
      | none =>
          rw [hcase] at h2
          simp only [tableSet] at h2
          by_cases he : sid2 = sid
          · rw [if_pos he] at h2
            injection h2 with h3
            subst h3
            exact ⟨Nat.le_refl now, Nat.le_refl now⟩
          · rw [if_neg he] at h2
            obtain ⟨hb1, hb2⟩ := ih sid2 r h2
            exact ⟨hb1, Nat.le_trans hb2 hle⟩
  | get hr hle ih =>
      rename_i t0 s0 now sid
      intro sid2 r h2
      unfold get_session at h2
      cases hcase : s0 sid with
      | some r0 =>
          rw [hcase] at h2
          simp only [tableSet] at h2
          by_cases he : sid2 = sid
          · rw [if_pos he] at h2
            injection h2 with h3
            subst h3
            obtain ⟨hb1, hb2⟩ := ih sid r0 hcase
            exact ⟨Nat.le_trans hb1 (Nat.le_trans hb2 hle), Nat.le_refl now⟩
          · rw [if_neg he] at h2
            obtain ⟨hb1, hb2⟩ := ih sid2 r h2
            exact ⟨hb1, Nat.le_trans hb2 hle⟩
      | none =>
          rw [hcase] at h2
          obtain ⟨hb1, hb2⟩ := ih sid2 r h2
          exact ⟨hb1, Nat.le_trans hb2 hle⟩
  | destroy hr hle ih =>
      rename_i t0 s0 now engine sid
      intro sid2 r h2
      unfold destroy_session at h2
      cases hcase : s0 sid with
      | some r0 =>
          rw [hcase] at h2
          cases he2 : engine sid <;>
            · rw [he2] at h2
              simp only [tableErase] at h2
              by_cases he : sid2 = sid
              · rw [if_pos he] at h2
                exact absurd h2 (by simp)
              · rw [if_neg he] at h2
                obtain ⟨hb1, hb2⟩ := ih sid2 r h2
                exact ⟨hb1, Nat.le_trans hb2 hle⟩
      | none =>
          rw [hcase] at h2
          obtain ⟨hb1, hb2⟩ := ih sid2 r h2
          exact ⟨hb1, Nat.le_trans hb2 hle⟩

/-- C9: in every reachable manager state each tabled session satisfies
`last_activity ≥ created_at`; and once the clock has strictly advanced past
the state's instant, each successful operation addressing a tabled
session — create on the existing id, get, and the exec / file-write /
file-read entry points that reach the table through `get_session` — leaves
the session tabled with `last_activity` set to the new clock reading, a
strict advance over its previous value. -/
theorem c9_last_activity_invariant :
    (∀ t s, Reachable t s → ∀ sid r, s sid = some r →
      r.created_at ≤ r.last_activity) ∧
    (∀ t s now sid hosts r, Reachable t s → s sid = some r → t < now →
      r.last_activity < now ∧
      (create_session now sid hosts s).2 sid
        = some { r with last_activity := now } ∧
      (get_session now sid s).2 sid = some { r with last_activity := now } ∧
      exec_command_table now sid s sid = some { r with last_activity := now } ∧
      write_file_table now sid s sid = some { r with last_activity := now } ∧
      read_file_table now sid s sid = some { r with last_activity := now }) := by
  constructor
  · intro t s h sid r hr
    exact (reachable_bounds h sid r hr).1
  · intro t s now sid hosts r h hr hlt
    have hb := reachable_bounds h sid r hr
    refine ⟨Nat.lt_of_le_of_lt hb.2 hlt, ?_, ?_, ?_, ?_, ?_⟩ <;>
      simp [create_session, get_session, exec_command_table, write_file_table,
        read_file_table, tableSet, hr]

/-- C9 witness: a session created at instant 1 satisfies the invariant, and a
get at instant 2 advances its `last_activity` from 1 to 2. -/
theorem c9_last_activity_invariant_witness :
    ((⟨1, 1, []⟩ : SessionRec).created_at ≤ (⟨1, 1, []⟩ : SessionRec).last_activity) ∧
    (get_session 2 (chars "a") (create_session 1 (chars "a") [] emptyTable).2).2
        (chars "a") = some ⟨1, 2, []⟩ := by
  have hreach : Reachable 1 (create_session 1 (chars "a") [] emptyTable).2 :=
    Reachable.create Reachable.init (Nat.zero_le 1)
  have hlook : (create_session 1 (chars "a") [] emptyTable).2 (chars "a")
      = some ⟨1, 1, []⟩ := by decide
  refine ⟨c9_last_activity_invariant.1 1 _ hreach (chars "a") _ hlook, ?_⟩
  have h2 := (c9_last_activity_invariant.2 1 _ 2 (chars "a") [] ⟨1, 1, []⟩
      hreach hlook (by omega)).2.2.1
  simpa using h2

/-- An encoded character is in the alphabet or is the out-of-range default. -/
theorem b64chr_mem_or_default (alpha : List Char) (i : Nat) :
    b64chr alpha i ∈ alpha ∨ b64chr alpha i = 'A' := by
  unfold b64chr
  cases h : alpha.get? i with
  | some c => exact Or.inl (List.get?_mem h)
  | none => exact Or.inr rfl

/-- No base64url output character is a dot. -/
theorem b64url_chr_ne_dot (i : Nat) : b64chr b64urlAlphabet i ≠ '.' := by
  rcases b64chr_mem_or_default b64urlAlphabet i with h | h
  · intro hc
    rw [hc] at h
    revert h
    decide
  · rw [h]
    decide

/-- No base64url output character is a padding `=`. -/
theorem b64url_chr_ne_pad (i : Nat) : b64chr b64urlAlphabet i ≠ '=' := by
  rcases b64chr_mem_or_default b64urlAlphabet i with h | h
  · intro hc
    rw [hc] at h
    revert h
    decide
  · rw [h]
    decide

/-- The unpadded base64url encoding of any byte list contains no dot. -/
theorem b64encode_no_dot : ∀ bs : List Nat, '.' ∉ b64encode b64urlAlphabet bs
  | [] => by simp [b64encode]
  | [a] => by
      simp only [b64encode, List.mem_cons, List.not_mem_nil, or_false]
      exact fun h => h.elim (fun h1 => b64url_chr_ne_dot _ h1.symm)
        (fun h2 => b64url_chr_ne_dot _ h2.symm)
  | [a, b] => by
      simp only [b64encode, List.mem_cons, List.not_mem_nil, or_false]
      intro h
      rcases h with h | h | h <;> exact b64url_chr_ne_dot _ h.symm
  | a :: b :: c :: rest => by
      simp only [b64encode, List.mem_cons]
      intro h
      rcases h with h | h | h | h | h
      · exact b64url_chr_ne_dot _ h.symm
      · exact b64url_chr_ne_dot _ h.symm
      · exact b64url_chr_ne_dot _ h.symm
      · exact b64url_chr_ne_dot _ h.symm
      · exact b64encode_no_dot rest h

/-- Splitting a separator-free string is the identity. -/
theorem splitOnChar_no_sep (sep : Char) (s : List Char) (h : sep ∉ s) :
    splitOnChar sep s = [s] := by
  induction s with
  | nil => rfl
  | cons c rest ih =>
      have hc : ¬ c = sep := fun he => h (he ▸ List.mem_cons_self c rest)
      rw [splitOnChar, if_neg hc, ih (fun hm => h (List.mem_cons_of_mem c hm))]

/-- Splitting peels off a separator-free head group. -/
theorem splitOnChar_append_sep (sep : Char) (xs ys : List Char) (h : sep ∉ xs) :
    splitOnChar sep (xs ++ sep :: ys) = xs :: splitOnChar sep ys := by
  induction xs with
  | nil => simp [splitOnChar]
  | cons c rest ih =>
      have hc : ¬ c = sep := fun he => h (he ▸ List.mem_cons_self c rest)
      rw [List.cons_append, splitOnChar, if_neg hc,
        ih (fun hm => h (List.mem_cons_of_mem c hm))]

/-- Splitting a three-part dotted message gives exactly the three parts. -/
theorem splitOnChar_three (sep : Char) (x y z : List Char)
    (hx : sep ∉ x) (hy : sep ∉ y) (hz : sep ∉ z) :
    splitOnChar sep (x ++ sep :: (y ++ sep :: z)) = [x, y, z] := by
  rw [splitOnChar_append_sep sep x _ hx, splitOnChar_append_sep sep y z hy,
    splitOnChar_no_sep sep z hz]

/-- Decoding inverts encoding on each 6-bit group of the url-safe alphabet. -/
theorem b64val_chr_fin : ∀ i : Fin 64,
    b64val b64urlAlphabet (b64chr b64urlAlphabet i.val) = some i.val := by
  decide

/-- `Nat` version of `b64val_chr_fin`. -/
theorem b64val_chr {i : Nat} (h : i < 64) :
    b64val b64urlAlphabet (b64chr b64urlAlphabet i) = some i :=
  b64val_chr_fin ⟨i, h⟩

/-- Re-padding ignores a leading full 4-character group. -/
theorem repad_cons4 (c1 c2 c3 c4 : Char) (s : List Char) :
    repad (c1 :: c2 :: c3 :: c4 :: s) = c1 :: c2 :: c3 :: c4 :: repad s := by
  unfold repad
  have hlen : (c1 :: c2 :: c3 :: c4 :: s).length % 4 = s.length % 4 := by
    simp [List.length_cons]
    omega
  rw [hlen]
  by_cases hp : 4 - s.length % 4 ≠ 4
  · rw [if_pos hp, if_pos hp]
    simp
  · rw [if_neg hp, if_neg hp]

/-- Re-padding keeps a string non-empty. -/
theorem repad_ne_nil (s : List Char) (h : s ≠ []) : repad s ≠ [] := by
  unfold repad
  by_cases hp : 4 - s.length % 4 ≠ 4
  · rw [if_pos hp]
    simp [h]
  · rw [if_neg hp]
    exact h

/-- Encoding a non-empty byte list is non-empty. -/
theorem b64encode_ne_nil (alpha : List Char) (bs : List Nat) (h : bs ≠ []) :
    b64encode alpha bs ≠ [] := by
  match bs with
  | [] => exact absurd rfl h
  | [a] => simp [b64encode]
  | [a, b] => simp [b64encode]
  | a :: b :: c :: rest => simp [b64encode]

/-- Decoding inverts encoding on a full group of bytes. -/
theorem b64decodeGroup_encode (a b c : Nat) (ha : a < 256) (hb : b < 256)
    (hc : c < 256) :
    b64decodeGroup b64urlAlphabet (b64chr b64urlAlphabet (a / 4))
      (b64chr b64urlAlphabet (a % 4 * 16 + b / 16))
      (b64chr b64urlAlphabet (b % 16 * 4 + c / 64))
      (b64chr b64urlAlphabet (c % 64)) = some [a, b, c] := by
  unfold b64decodeGroup
  rw [b64val_chr (by omega), b64val_chr (by omega), b64val_chr (by omega),
    b64val_chr (by omega)]
  simp only [Option.bind_eq_bind, Option.some_bind, Option.pure_def,
    Option.some.injEq, List.cons.injEq, and_true]
  refine ⟨by omega, by omega, by omega⟩

/-- Base64url decoding inverts unpadded encoding followed by re-padding, for
genuine byte lists. -/
theorem b64url_decode_encode : ∀ bs : List Nat, (∀ x ∈ bs, x < 256) →
    b64decode b64urlAlphabet (repad (b64encode b64urlAlphabet bs)) = some bs
  | [], _ => rfl
  | [a], hall => by
      have ha : a < 256 := hall a (by simp)
      have hpad : repad (b64encode b64urlAlphabet [a])
          = [b64chr b64urlAlphabet (a / 4), b64chr b64urlAlphabet (a % 4 * 16),
             '=', '='] := rfl
      rw [hpad]
      show b64decodeLast b64urlAlphabet (b64chr b64urlAlphabet (a / 4))
        (b64chr b64urlAlphabet (a % 4 * 16)) '=' '=' = some [a]
      unfold b64decodeLast
      rw [if_pos ⟨rfl, rfl⟩, b64val_chr (by omega), b64val_chr (by omega)]
      simp only [Option.bind_eq_bind, Option.some_bind, Option.pure_def,
        Option.some.injEq, List.cons.injEq, and_true]
      omega
  | [a, b], hall => by
      have ha : a < 256 := hall a (by simp)
      have hb : b < 256 := hall b (by simp)
      have hpad : repad (b64encode b64urlAlphabet [a, b])
          = [b64chr b64urlAlphabet (a / 4),
             b64chr b64urlAlphabet (a % 4 * 16 + b / 16),
             b64chr b64urlAlphabet (b % 16 * 4), '='] := rfl
      rw [hpad]
      show b64decodeLast b64urlAlphabet (b64chr b64urlAlphabet (a / 4))
        (b64chr b64urlAlphabet (a % 4 * 16 + b / 16))
        (b64chr b64urlAlphabet (b % 16 * 4)) '=' = some [a, b]
      unfold b64decodeLast
      rw [if_neg (fun hco => b64url_chr_ne_pad _ hco.1), if_pos rfl,
        b64val_chr (by omega), b64val_chr (by omega), b64val_chr (by omega)]
      simp only [Option.bind_eq_bind, Option.some_bind, Option.pure_def,
        Option.some.injEq, List.cons.injEq, and_true]
      refine ⟨by omega, by omega⟩
  | a :: b :: c :: rest, hall => by
      have ha : a < 256 := hall a (by simp)
      have hb : b < 256 := hall b (by simp)
      have hc : c < 256 := hall c (by simp)
      have henc : b64encode b64urlAlphabet (a :: b :: c :: rest)
          = b64chr b64urlAlphabet (a / 4) ::
            b64chr b64urlAlphabet (a % 4 * 16 + b / 16) ::
            b64chr b64urlAlphabet (b % 16 * 4 + c / 64) ::
            b64chr b64urlAlphabet (c % 64) :: b64encode b64urlAlphabet rest := rfl
      rw [henc, repad_cons4]
      cases hrest : rest with
      | nil =>
          have hre : repad (b64encode b64urlAlphabet ([] : List Nat)) = [] := rfl
          rw [hrest] at *
          rw [hre]
          show b64decodeLast b64urlAlphabet (b64chr b64urlAlphabet (a / 4))
            (b64chr b64urlAlphabet (a % 4 * 16 + b / 16))
            (b64chr b64urlAlphabet (b % 16 * 4 + c / 64))
            (b64chr b64urlAlphabet (c % 64)) = some [a, b, c]
          unfold b64decodeLast
          rw [if_neg (fun hco => b64url_chr_ne_pad _ hco.1),
            if_neg (fun hco => b64url_chr_ne_pad _ hco)]
          exact b64decodeGroup_encode a b c ha hb hc
      | cons r0 rtail =>
          rw [← hrest]
          have hne : repad (b64encode b64urlAlphabet rest) ≠ [] :=
            repad_ne_nil _ (b64encode_ne_nil _ _ (by rw [hrest]; simp))
          rw [b64decode, if_neg hne]
          rw [b64decodeGroup_encode a b c ha hb hc,
            b64url_decode_encode rest (fun x hx => hall x (by simp [hx]))]
          rfl

/-- Equation of `verify_parts` on a three-part split. -/
theorem verify_parts_three (mac : List Nat → List Nat → List Nat)
    (jsonDecode : List Nat → Option ProxyJwtPayload)
    (signing_key h64 p64 s64 : List Char) (now : Nat) :
    verify_parts mac jsonDecode signing_key [h64, p64, s64] now
      = if s64 = b64encode b64urlAlphabet
            (mac (strBytes signing_key) (strBytes (h64 ++ '.' :: p64)))
        then verify_payload_b64 jsonDecode p64 now
        else .errInvalid := rfl

/-- Equation of `verify_payload_b64` once the base64 decode is known. -/
theorem verify_payload_b64_eq (jsonDecode : List Nat → Option ProxyJwtPayload)
    (p64 : List Char) (bytes : List Nat) (now : Nat)
    (h : b64decode b64urlAlphabet (repad p64) = some bytes) :
    verify_payload_b64 jsonDecode p64 now
      = verify_payload_bytes jsonDecode bytes now := by
  unfold verify_payload_b64
  rw [h]

/-- Equation of `verify_payload_bytes` once the JSON decode is known. -/
theorem verify_payload_bytes_eq (jsonDecode : List Nat → Option ProxyJwtPayload)
    (bytes : List Nat) (payload : ProxyJwtPayload) (now : Nat)
    (h : jsonDecode bytes = some payload) :
    verify_payload_bytes jsonDecode bytes now
      = if payload.exp < now then .errExpired else .ok payload := by
  unfold verify_payload_bytes
  rw [h]

/-- A minted token splits on dots into exactly its three segments. -/
theorem generate_proxy_jwt_split (mac : List Nat → List Nat → List Nat)
    (jsonEncode : ProxyJwtPayload → List Nat)
    (signing_key session_id : List Char) (tenant_id : Option (List Char))
    (allowed_hosts : List (List Char)) (exp : Nat) :
    splitOnChar '.'
        (generate_proxy_jwt mac jsonEncode signing_key session_id tenant_id
          allowed_hosts exp)
      = [b64encode b64urlAlphabet (strBytes jwtHeaderJson),
         b64encode b64urlAlphabet
           (jsonEncode (minted_payload session_id tenant_id allowed_hosts exp)),
         b64encode b64urlAlphabet
           (mac (strBytes signing_key)
             (strBytes
               (b64encode b64urlAlphabet (strBytes jwtHeaderJson) ++
                 '.' :: b64encode b64urlAlphabet
                   (jsonEncode (minted_payload session_id tenant_id allowed_hosts exp)))))] := by
  unfold generate_proxy_jwt jwt_message
  rw [List.append_assoc, List.cons_append]
  exact splitOnChar_three '.' _ _ _ (b64encode_no_dot _) (b64encode_no_dot _)
    (b64encode_no_dot _)

/-- C3 (amended): for every signing key, deterministic MAC and JSON codec
that round-trips the minted payload, verification of a minted token returns
the original payload — whose `allowed_hosts` is the comma-join of the input
list — for every time `now ≤ exp`, including `now = exp` exactly, and an
expiry error for every `now > exp`. -/
theorem c3_mint_verify_roundtrip (mac : List Nat → List Nat → List Nat)
    (jsonEncode : ProxyJwtPayload → List Nat)
    (jsonDecode : List Nat → Option ProxyJwtPayload)
    (signing_key session_id : List Char) (tenant_id : Option (List Char))
    (allowed_hosts : List (List Char)) (exp now : Nat)
    (hjson : jsonDecode
        (jsonEncode (minted_payload session_id tenant_id allowed_hosts exp))
      = some (minted_payload session_id tenant_id allowed_hosts exp))
    (hbytes : ∀ x ∈ jsonEncode (minted_payload session_id tenant_id allowed_hosts exp),
      x < 256) :
    (now ≤ exp →
      verify_jwt mac jsonDecode signing_key
          (generate_proxy_jwt mac jsonEncode signing_key session_id tenant_id
            allowed_hosts exp) now
        = .ok (minted_payload session_id tenant_id allowed_hosts exp)) ∧
    (exp < now →
      verify_jwt mac jsonDecode signing_key
          (generate_proxy_jwt mac jsonEncode signing_key session_id tenant_id
            allowed_hosts exp) now
        = .errExpired) ∧
    (minted_payload session_id tenant_id allowed_hosts exp).allowed_hosts
      = joinChar ',' allowed_hosts := by
  have hver : verify_jwt mac jsonDecode signing_key
      (generate_proxy_jwt mac jsonEncode signing_key session_id tenant_id
        allowed_hosts exp) now
      = if (minted_payload session_id tenant_id allowed_hosts exp).exp < now
        then .errExpired
        else .ok (minted_payload session_id tenant_id allowed_hosts exp) := by
    unfold verify_jwt
    rw [generate_proxy_jwt_split, verify_parts_three, if_pos rfl,
      verify_payload_b64_eq _ _ _ _ (b64url_decode_encode _ hbytes),
      verify_payload_bytes_eq _ _ _ _ hjson]
  refine ⟨?_, ?_, rfl⟩
  · intro hle
    rw [hver, if_neg (by simp [minted_payload]; omega)]
  · intro hlt
    rw [hver, if_pos (by simp [minted_payload]; omega)]

set_option maxRecDepth 100000 in
/-- C3: at `now = exp` exactly, a concretely minted token still verifies and
yields its payload — the code rejects only when `exp < now` — refuting the
claimed expiry error at `t = exp`. -/
theorem c3_expiry_boundary_counterexample :
    verify_jwt (fun _ _ => [1, 2, 3]) jsonDecodePayload (chars "k")
        (generate_proxy_jwt (fun _ _ => [1, 2, 3]) jsonEncodePayload (chars "k")
          (chars "s") none [chars "example.com"] 1000) 1000
      = .ok (minted_payload (chars "s") none [chars "example.com"] 1000) := by
  decide

set_option maxRecDepth 100000 in
/-- C3 witness: a token minted with `exp = 1000` under a concrete MAC and the
concrete JSON codec verifies to its payload at `now = 999` and is rejected as
expired at `now = 1001`. -/
theorem c3_mint_verify_roundtrip_witness :
    verify_jwt (fun _ _ => [1, 2, 3]) jsonDecodePayload (chars "k")
        (generate_proxy_jwt (fun _ _ => [1, 2, 3]) jsonEncodePayload (chars "k")
          (chars "s") none [chars "example.com"] 1000) 999
      = .ok (minted_payload (chars "s") none [chars "example.com"] 1000) ∧
    verify_jwt (fun _ _ => [1, 2, 3]) jsonDecodePayload (chars "k")
        (generate_proxy_jwt (fun _ _ => [1, 2, 3]) jsonEncodePayload (chars "k")
          (chars "s") none [chars "example.com"] 1000) 1001
      = .errExpired := by
  refine ⟨(c3_mint_verify_roundtrip (fun _ _ => [1, 2, 3]) jsonEncodePayload
      jsonDecodePayload (chars "k") (chars "s") none [chars "example.com"] 1000
      999 (by decide) (by decide)).1 (by omega),
    (c3_mint_verify_roundtrip (fun _ _ => [1, 2, 3]) jsonEncodePayload
      jsonDecodePayload (chars "k") (chars "s") none [chars "example.com"] 1000
      1001 (by decide) (by decide)).2.1 (by omega)⟩

set_option maxRecDepth 100000 in
/-- C1: a request carrying well-formed Basic credentials with a present but
invalid token (`abc` has no three dot-separated parts, so verification fails)
is not rejected with 403: the proxy resolves the default allowlist and
forwards the request to an allowed host — refuting the claimed outright
rejection for present-but-invalid credentials. -/
theorem c1_invalid_token_not_rejected :
    extract_token_from_auth c1BadAuthHeader = some (chars "abc") ∧
    verify_jwt (fun _ _ => [1, 2, 3]) jsonDecodePayload (chars "k")
        (chars "abc") 0 = .errInvalid ∧
    get_allowed_hosts (fun _ _ => [1, 2, 3]) jsonDecodePayload (chars "k")
        DEFAULT_ALLOWED_HOSTS c1BadAuthHeader 0 = DEFAULT_ALLOWED_HOSTS ∧
    handle_request_policy (fun _ _ => [1, 2, 3]) jsonDecodePayload (chars "k")
        DEFAULT_ALLOWED_HOSTS (chars "http://pypi.org/simple/") c1BadAuthHeader 0
      = .forwardsTo (chars "pypi.org") := by
  decide

/-- C1 (amended): `_get_allowed_hosts` falls back to the configured defaults
not only when the header is absent or malformed (no token extracted, or an
empty one) but equally when a present token fails verification — invalid or
expired credentials never cause a 403; the request is served under the
default allowlist, and only a verified token substitutes its own comma-split,
stripped hosts. -/
theorem c1_policy_fallback (mac : List Nat → List Nat → List Nat)
    (jsonDecode : List Nat → Option ProxyJwtPayload)
    (signing_key : List Char) (defaults : List (List Char))
    (auth_header : List Char) (now : Nat) :
    (extract_token_from_auth auth_header = none →
      get_allowed_hosts mac jsonDecode signing_key defaults auth_header now
        = defaults) ∧
    (∀ token, extract_token_from_auth auth_header = some token →
      (∀ payload, verify_jwt mac jsonDecode signing_key token now ≠ .ok payload) →
      get_allowed_hosts mac jsonDecode signing_key defaults auth_header now
        = defaults) ∧
    (∀ token payload, extract_token_from_auth auth_header = some token →
      token ≠ [] →
      verify_jwt mac jsonDecode signing_key token now = .ok payload →
      get_allowed_hosts mac jsonDecode signing_key defaults auth_header now
        = (splitOnChar ',' payload.allowed_hosts).map stripChars) := by
  refine ⟨?_, ?_, ?_⟩
  · intro h
    simp [get_allowed_hosts, h]
  · intro token hex hne
    by_cases ht : token = []
    · simp [get_allowed_hosts, hex, ht]
    · cases hv : verify_jwt mac jsonDecode signing_key token now with
      | ok p => exact absurd hv (hne p)
      | errInvalid => simp [get_allowed_hosts, hex, ht, hv]
      | errExpired => simp [get_allowed_hosts, hex, ht, hv]
  · intro token payload hex ht hv
    simp [get_allowed_hosts, hex, ht, hv]

set_option maxRecDepth 100000 in
/-- C1 witness: the amended theorem applied to the concrete bad-credential
header yields the default allowlist. -/
theorem c1_policy_fallback_witness :
    get_allowed_hosts (fun _ _ => [1, 2, 3]) jsonDecodePayload (chars "k")
        DEFAULT_ALLOWED_HOSTS c1BadAuthHeader 0 = DEFAULT_ALLOWED_HOSTS := by
  refine (c1_policy_fallback (fun _ _ => [1, 2, 3]) jsonDecodePayload (chars "k")
      DEFAULT_ALLOWED_HOSTS c1BadAuthHeader 0).2.1 (chars "abc") (by decide) ?_
  intro payload hv
  have hinv : verify_jwt (fun _ _ => [1, 2, 3]) jsonDecodePayload (chars "k")
      (chars "abc") 0 = .errInvalid := by decide
  rw [hinv] at hv
  exact VerifyResult.noConfusion hv
